import Mathlib

/-!
Verification of the data-preparation core of VirtuWeb's Globe component
(src/src/components/ui/Globe.tsx): coordinate validation, arc-to-point
building with deduplication, hex color parsing, configuration merging,
and the random index sampler.

JavaScript numbers are modelled as either NaN or a rational value
(JSNum below); machine floating point is abstracted to exact rationals.
JavaScript strings are modelled as Lean strings via their character
lists.
-/

set_option maxHeartbeats 1000000

/-- A JavaScript number relevant to this component: NaN or a finite value. -/
inductive JSNum where
  | nan : JSNum
  | val : ℚ → JSNum
deriving DecidableEq

namespace JSNum

/-- Model of Number.isNaN. -/
def isNaN : JSNum → Bool
  | nan => true
  | val _ => false

/-- Model of Math.abs (with if-then-else, matching abs on finite values). -/
def jsAbs : JSNum → JSNum
  | nan => nan
  | val q => val (if q < 0 then -q else q)

/-- JavaScript comparison a <= b: false whenever either side is NaN. -/
def jsLe : JSNum → JSNum → Bool
  | val a, val b => decide (a ≤ b)
  | _, _ => false

/-- JavaScript strict equality a === b on numbers: NaN === NaN is false. -/
def jsEq : JSNum → JSNum → Bool
  | val a, val b => decide (a = b)
  | _, _ => false

theorem jsEq_true_iff {x y : JSNum} : jsEq x y = true ↔ ∃ q, x = val q ∧ y = val q := by
  cases x with
  | nan => simp [jsEq]
  | val a =>
    cases y with
    | nan => simp [jsEq]
    | val b =>
      simp only [jsEq, decide_eq_true_eq]
      constructor
      · intro h; exact ⟨a, rfl, by rw [h]⟩
      · rintro ⟨q, h1, h2⟩; cases h1; cases h2; rfl

end JSNum

open JSNum

/-- Source line 31: isValidCoordinate(value, max) = !Number.isNaN(value) && Math.abs(value) <= max. -/
def isValidCoordinate (value : JSNum) (max : ℚ) : Bool :=
  !value.isNaN && jsLe value.jsAbs (val max)

/-- Source line 33: isValidLat(lat) = isValidCoordinate(lat, 90). -/
def isValidLat (lat : JSNum) : Bool := isValidCoordinate lat 90

/-- Source line 34: isValidLng(lng) = isValidCoordinate(lng, 180). -/
def isValidLng (lng : JSNum) : Bool := isValidCoordinate lng 180

theorem isValidCoordinate_val_iff (q m : ℚ) :
    isValidCoordinate (val q) m = true ↔ (-m ≤ q ∧ q ≤ m) := by
  simp only [isValidCoordinate, isNaN, jsAbs, jsLe, Bool.not_false, Bool.true_and,
    decide_eq_true_eq]
  split
  · constructor
    · intro h; constructor <;> linarith
    · intro h; linarith [h.1]
  · constructor
    · intro h; constructor <;> linarith
    · intro h; exact h.2

/-- Claim C1: isValidLat(v) is true iff v is not NaN and -90 <= v <= 90, and
isValidLng(v) is true iff v is not NaN and -180 <= v <= 180.  Both are total
Lean functions on every JSNum input, so they are pure and raise no error. -/
theorem isValidLat_isValidLng_characterisation :
    (∀ q : ℚ, isValidLat (val q) = true ↔ (-90 ≤ q ∧ q ≤ 90)) ∧
    (∀ q : ℚ, isValidLng (val q) = true ↔ (-180 ≤ q ∧ q ≤ 180)) ∧
    isValidLat JSNum.nan = false ∧ isValidLng JSNum.nan = false :=
  ⟨fun q => isValidCoordinate_val_iff q 90,
   fun q => isValidCoordinate_val_iff q 180,
   rfl, rfl⟩

/-- Witness for C1: the characterisations applied at concrete values. -/
theorem isValidLat_isValidLng_characterisation_witness :
    isValidLat (val 45) = true ∧ isValidLng (val 200) = false :=
  ⟨(isValidLat_isValidLng_characterisation.1 45).mpr (by norm_num),
   by
    have h := (isValidLat_isValidLng_characterisation.2.1 200)
    have : ¬((-180 : ℚ) ≤ 200 ∧ (200 : ℚ) ≤ 180) := by norm_num
    cases hv : isValidLng (val 200)
    · rfl
    · exact absurd (h.mp hv) this⟩

/-! ### Color Parser (source lines 303-320) -/

/-- An RGB triple as produced by hexToRgb. -/
structure RGB where
  r : ℕ
  g : ℕ
  b : ℕ
deriving DecidableEq

/-- The character class of the regexes, with the i flag: a-f, A-F, 0-9. -/
def isHexDigit (c : Char) : Bool :=
  decide ((48 ≤ c.toNat ∧ c.toNat ≤ 57) ∨ (97 ≤ c.toNat ∧ c.toNat ≤ 102) ∨
    (65 ≤ c.toNat ∧ c.toNat ≤ 70))

/-- Value of a single hex digit, as parseInt(-, 16) assigns it (case-insensitive). -/
def hexVal (c : Char) : ℕ :=
  if c.toNat ≤ 57 then c.toNat - 48
  else if 97 ≤ c.toNat then c.toNat - 87
  else c.toNat - 55

/-- The effect of the anchored leading group #? of both regexes: drop one
leading hash character if present. -/
def stripHash (cs : List Char) : List Char :=
  match cs with
  | c :: rest => if c = '#' then rest else cs
  | [] => cs

/-- Whether the shorthand regex of source line 306 matches the string. -/
def matches3 (cs : List Char) : Bool :=
  match stripHash cs with
  | [r, g, b] => isHexDigit r && isHexDigit g && isHexDigit b
  | _ => false

/-- Whether the 6-digit regex of source line 309 matches the string. -/
def matches6 (cs : List Char) : Bool :=
  match stripHash cs with
  | [c1, c2, c3, c4, c5, c6] =>
    isHexDigit c1 && isHexDigit c2 && isHexDigit c3 && isHexDigit c4 &&
      isHexDigit c5 && isHexDigit c6
  | _ => false

/-- The body of the shorthand replacement once the leading group has been
consumed: orig is the whole original string, m the stripped remainder. -/
def expandCore (orig m : List Char) : List Char :=
  match m with
  | [r, g, b] =>
    if isHexDigit r && isHexDigit g && isHexDigit b then [r, r, g, g, b, b] else orig
  | _ => orig

/-- Source line 307: hex.replace(shorthandRegex, (m, r, g, b) => r+r+g+g+b+b).
The regex is anchored both sides, so either the whole string matches and is
replaced by the six doubled capture characters (the hash is not kept), or the
string is returned unchanged. -/
def expandShorthand (cs : List Char) : List Char :=
  expandCore cs (stripHash cs)

/-- The body of the 6-digit regex once the leading group has been consumed. -/
def parse6Core (m : List Char) : Option RGB :=
  match m with
  | [c1, c2, c3, c4, c5, c6] =>
    if isHexDigit c1 && isHexDigit c2 && isHexDigit c3 && isHexDigit c4 &&
        isHexDigit c5 && isHexDigit c6 then
      some ⟨hexVal c1 * 16 + hexVal c2, hexVal c3 * 16 + hexVal c4,
        hexVal c5 * 16 + hexVal c6⟩
    else none
  | _ => none

/-- Source lines 309-316: exec the 6-digit regex and parse the three capture
groups with parseInt(-, 16); none when the regex does not match. -/
def parse6 (cs : List Char) : Option RGB :=
  parse6Core (stripHash cs)

/-- hexToRgb on the character list of the input string.  The try/catch of the
source never fires (replace, exec and parseInt do not throw here); the
fallback is reached exactly when the 6-digit regex fails to match. -/
def hexToRgbL (cs : List Char) : RGB :=
  (parse6 (expandShorthand cs)).getD ⟨255, 255, 255⟩

/-- Source lines 303-320: hexToRgb. -/
def hexToRgb (s : String) : RGB := hexToRgbL s.data

theorem char_toNat_injective {c d : Char} (h : c.toNat = d.toNat) : c = d :=
  Char.eq_of_val_eq (UInt32.toNat.inj h)

theorem hexVal_le_15 {c : Char} (h : isHexDigit c = true) : hexVal c ≤ 15 := by
  simp only [isHexDigit, decide_eq_true_eq] at h
  unfold hexVal
  split
  · omega
  · split <;> omega

theorem isHexDigit_ne_hash {c : Char} (h : isHexDigit c = true) : c ≠ '#' := by
  intro he
  subst he
  exact absurd h (by decide)

theorem stripHash_cons_hash (rest : List Char) : stripHash ('#' :: rest) = rest := by
  simp [stripHash]

theorem stripHash_cons_ne {c : Char} (rest : List Char) (h : c ≠ '#') :
    stripHash (c :: rest) = c :: rest := by
  simp [stripHash, h]

theorem parse6_le {cs : List Char} {rgb : RGB} (h : parse6 cs = some rgb) :
    rgb.r ≤ 255 ∧ rgb.g ≤ 255 ∧ rgb.b ≤ 255 := by
  unfold parse6 parse6Core at h
  split at h
  · split at h
    · next hhex =>
      cases h
      simp only [Bool.and_eq_true] at hhex
      obtain ⟨⟨⟨⟨⟨h1, h2⟩, h3⟩, h4⟩, h5⟩, h6⟩ := hhex
      have e1 := hexVal_le_15 h1
      have e2 := hexVal_le_15 h2
      have e3 := hexVal_le_15 h3
      have e4 := hexVal_le_15 h4
      have e5 := hexVal_le_15 h5
      have e6 := hexVal_le_15 h6
      refine ⟨?_, ?_, ?_⟩ <;> simp only [] <;> omega
    · exact Option.noConfusion h
  · exact Option.noConfusion h

theorem expandShorthand_of_not_matches3 {cs : List Char} (h : matches3 cs = false) :
    expandShorthand cs = cs := by
  unfold matches3 at h
  unfold expandShorthand expandCore
  split
  · next c1 c2 c3 heq =>
    rw [heq] at h
    simp only [] at h
    rw [h]
    rfl
  · rfl

theorem parse6_of_not_matches6 {cs : List Char} (h : matches6 cs = false) :
    parse6 cs = none := by
  unfold matches6 at h
  unfold parse6 parse6Core
  split
  · next c1 c2 c3 c4 c5 c6 heq =>
    rw [heq] at h
    simp only [] at h
    rw [h]
    rfl
  · rfl

/-- Claim C4: hexToRgb expands a 3-digit shorthand hex string by doubling each
character and parses the 6-digit form into three byte values; in particular
hexToRgb "#9370DB" is (147, 112, 219), hexToRgb "#abc" is (170, 187, 204) and
hexToRgb "not-a-color" is the fallback (255, 255, 255). -/
theorem hexToRgb_shorthand_doubling_and_examples :
    (∀ r g b : Char, isHexDigit r = true → isHexDigit g = true → isHexDigit b = true →
      hexToRgb (String.mk ['#', r, g, b]) = hexToRgb (String.mk ['#', r, r, g, g, b, b])) ∧
    hexToRgb "#9370DB" = ⟨147, 112, 219⟩ ∧
    hexToRgb "#abc" = ⟨170, 187, 204⟩ ∧
    hexToRgb "not-a-color" = ⟨255, 255, 255⟩ := by
  refine ⟨?_, by decide, by decide, by decide⟩
  intro r g b hr hg hb
  have hr' : r ≠ '#' := isHexDigit_ne_hash hr
  show hexToRgbL ['#', r, g, b] = hexToRgbL ['#', r, r, g, g, b, b]
  have e1 : expandShorthand ['#', r, g, b] = [r, r, g, g, b, b] := by
    unfold expandShorthand expandCore
    rw [stripHash_cons_hash]
    simp [hr, hg, hb]
  have e2 : expandShorthand ['#', r, r, g, g, b, b] = ['#', r, r, g, g, b, b] := by
    unfold expandShorthand
    rw [stripHash_cons_hash]
    rfl
  have e3 : parse6 [r, r, g, g, b, b] = parse6 ['#', r, r, g, g, b, b] := by
    unfold parse6
    rw [stripHash_cons_hash, stripHash_cons_ne _ hr']
  unfold hexToRgbL
  rw [e1, e2, e3]

/-- Witness for C4: the doubling clause applied at the concrete digits a, b, c. -/
theorem hexToRgb_shorthand_doubling_and_examples_witness :
    hexToRgb (String.mk ['#', 'a', 'b', 'c']) =
      hexToRgb (String.mk ['#', 'a', 'a', 'b', 'b', 'c', 'c']) :=
  hexToRgb_shorthand_doubling_and_examples.1 'a' 'b' 'c' (by decide) (by decide) (by decide)

/-- Claim C5: for every input string, hexToRgb returns channels in [0, 255],
and on any parse failure (the input matches neither the 3-digit shorthand form
nor the 6-digit form) it returns exactly the fallback (255, 255, 255), with no
other error signalling. -/
theorem hexToRgb_range_and_fallback :
    ∀ s : String,
      ((hexToRgb s).r ≤ 255 ∧ (hexToRgb s).g ≤ 255 ∧ (hexToRgb s).b ≤ 255) ∧
      (matches3 s.data = false → matches6 s.data = false →
        hexToRgb s = ⟨255, 255, 255⟩) := by
  intro s
  constructor
  · show (hexToRgbL s.data).r ≤ 255 ∧ (hexToRgbL s.data).g ≤ 255 ∧ (hexToRgbL s.data).b ≤ 255
    unfold hexToRgbL
    cases h : parse6 (expandShorthand s.data) with
    | none => simp [Option.getD]
    | some rgb => simpa [Option.getD] using parse6_le h
  · intro h3 h6
    show hexToRgbL s.data = ⟨255, 255, 255⟩
    unfold hexToRgbL
    rw [expandShorthand_of_not_matches3 h3, parse6_of_not_matches6 h6]
    rfl

/-- Witness for C5: the range clause and the fallback clause at "not-a-color". -/
theorem hexToRgb_range_and_fallback_witness :
    (hexToRgb "not-a-color").r ≤ 255 ∧ hexToRgb "not-a-color" = ⟨255, 255, 255⟩ :=
  ⟨(hexToRgb_range_and_fallback "not-a-color").1.1,
   (hexToRgb_range_and_fallback "not-a-color").2 (by decide) (by decide)⟩

/-! ### Case handling in hexToRgb (claim C10) -/

/-- ASCII case folding on character codes: map an upper-case letter code to
the corresponding lower-case code, leave every other code alone. -/
def caseFoldN (n : ℕ) : ℕ := if 65 ≤ n ∧ n ≤ 90 then n + 32 else n

/-- Two characters are equal up to ASCII case. -/
def caseEqC (c d : Char) : Prop := caseFoldN c.toNat = caseFoldN d.toNat

instance : ∀ c d, Decidable (caseEqC c d) := fun c d => by
  unfold caseEqC; infer_instance

theorem caseEqC_hash {c d : Char} (h : caseEqC c d) (hc : c = '#') : d = '#' := by
  subst hc
  unfold caseEqC caseFoldN at h
  have h35 : ('#' : Char).toNat = 35 := by decide
  rw [h35] at h
  apply char_toNat_injective
  rw [h35]
  split at h <;> split at h <;> omega

theorem caseEqC_hash_iff {c d : Char} (h : caseEqC c d) : c = '#' ↔ d = '#' :=
  ⟨caseEqC_hash h, caseEqC_hash (by unfold caseEqC at h ⊢; omega)⟩

theorem isHexDigit_caseEqC {c d : Char} (h : caseEqC c d) :
    isHexDigit c = isHexDigit d := by
  unfold caseEqC caseFoldN at h
  simp only [isHexDigit, decide_eq_decide]
  split at h <;> split at h <;> omega

theorem hexVal_caseEqC {c d : Char} (h : caseEqC c d) :
    hexVal c = hexVal d := by
  unfold caseEqC caseFoldN at h
  unfold hexVal
  split at h <;> split at h <;> split_ifs <;> omega

theorem forall2_caseEqC_stripHash {cs ds : List Char}
    (h : List.Forall₂ caseEqC cs ds) :
    List.Forall₂ caseEqC (stripHash cs) (stripHash ds) := by
  cases h with
  | nil => exact List.Forall₂.nil
  | cons hcd htail =>
    next c d cs' ds' =>
    by_cases hc : c = '#'
    · have hd : d = '#' := (caseEqC_hash_iff hcd).mp hc
      subst hc; subst hd
      rw [stripHash_cons_hash, stripHash_cons_hash]
      exact htail
    · have hd : d ≠ '#' := fun hd => hc ((caseEqC_hash_iff hcd).mpr hd)
      rw [stripHash_cons_ne _ hc, stripHash_cons_ne _ hd]
      exact List.Forall₂.cons hcd htail

theorem parse6Core_caseEqC : ∀ {cs ds : List Char},
    List.Forall₂ caseEqC cs ds → parse6Core cs = parse6Core ds := by
  intro cs ds h
  rcases h with _ | ⟨h1, _ | ⟨h2, _ | ⟨h3, _ | ⟨h4, _ | ⟨h5, _ | ⟨h6, _ | ⟨h7, htail⟩⟩⟩⟩⟩⟩⟩ <;>
    try rfl
  next c1 d1 c2 d2 c3 d3 c4 d4 c5 d5 c6 d6 =>
  show parse6Core [c1, c2, c3, c4, c5, c6] = parse6Core [d1, d2, d3, d4, d5, d6]
  unfold parse6Core
  have hg : (isHexDigit c1 && isHexDigit c2 && isHexDigit c3 && isHexDigit c4 &&
      isHexDigit c5 && isHexDigit c6) =
      (isHexDigit d1 && isHexDigit d2 && isHexDigit d3 && isHexDigit d4 &&
      isHexDigit d5 && isHexDigit d6) := by
    rw [isHexDigit_caseEqC h1, isHexDigit_caseEqC h2, isHexDigit_caseEqC h3,
      isHexDigit_caseEqC h4, isHexDigit_caseEqC h5, isHexDigit_caseEqC h6]
  simp only [hg]
  by_cases hb : (isHexDigit d1 && isHexDigit d2 && isHexDigit d3 && isHexDigit d4 &&
      isHexDigit d5 && isHexDigit d6) = true
  · rw [if_pos hb, if_pos hb]
    rw [hexVal_caseEqC h1, hexVal_caseEqC h2, hexVal_caseEqC h3,
      hexVal_caseEqC h4, hexVal_caseEqC h5, hexVal_caseEqC h6]
  · rw [if_neg hb, if_neg hb]

theorem expandCore_caseEqC {orig orig' : List Char}
    (h : List.Forall₂ caseEqC orig orig') :
    ∀ {m m' : List Char}, List.Forall₂ caseEqC m m' →
      List.Forall₂ caseEqC (expandCore orig m) (expandCore orig' m') := by
  intro m m' hm
  rcases hm with _ | ⟨h1, _ | ⟨h2, _ | ⟨h3, _ | ⟨h4, htail⟩⟩⟩⟩ <;> try exact h
  next r1 r2 g1 g2 b1 b2 =>
  show List.Forall₂ caseEqC
    (if (isHexDigit r1 && isHexDigit g1 && isHexDigit b1) = true
      then [r1, r1, g1, g1, b1, b1] else orig)
    (if (isHexDigit r2 && isHexDigit g2 && isHexDigit b2) = true
      then [r2, r2, g2, g2, b2, b2] else orig')
  have hg : (isHexDigit r1 && isHexDigit g1 && isHexDigit b1) =
      (isHexDigit r2 && isHexDigit g2 && isHexDigit b2) := by
    rw [isHexDigit_caseEqC h1, isHexDigit_caseEqC h2, isHexDigit_caseEqC h3]
  rw [hg]
  by_cases hb : (isHexDigit r2 && isHexDigit g2 && isHexDigit b2) = true
  · rw [if_pos hb, if_pos hb]
    exact List.Forall₂.cons h1 (List.Forall₂.cons h1 (List.Forall₂.cons h2
      (List.Forall₂.cons h2 (List.Forall₂.cons h3
        (List.Forall₂.cons h3 List.Forall₂.nil)))))
  · rw [if_neg hb, if_neg hb]
    exact h

theorem expandShorthand_caseEqC {cs ds : List Char}
    (h : List.Forall₂ caseEqC cs ds) :
    List.Forall₂ caseEqC (expandShorthand cs) (expandShorthand ds) :=
  expandCore_caseEqC h (forall2_caseEqC_stripHash h)

theorem hexToRgbL_caseEqC {cs ds : List Char} (h : List.Forall₂ caseEqC cs ds) :
    hexToRgbL cs = hexToRgbL ds := by
  unfold hexToRgbL parse6
  rw [parse6Core_caseEqC (forall2_caseEqC_stripHash (expandShorthand_caseEqC h))]

theorem hexToRgbL_hash_optional (cs : List Char) (h : cs.head? ≠ some '#') :
    hexToRgbL ('#' :: cs) = hexToRgbL cs := by
  have hs : stripHash cs = cs := by
    cases cs with
    | nil => rfl
    | cons c t =>
      refine stripHash_cons_ne _ fun hc => h ?_
      rw [hc]
      rfl
  unfold hexToRgbL expandShorthand
  rw [stripHash_cons_hash, hs]
  rcases cs with _ | ⟨a, _ | ⟨b, _ | ⟨c, _ | ⟨d, t⟩⟩⟩⟩
  · rfl
  · show (parse6 ('#' :: [a])).getD _ = (parse6 [a]).getD _
    unfold parse6
    rw [stripHash_cons_hash, hs]
  · show (parse6 ('#' :: [a, b])).getD _ = (parse6 [a, b]).getD _
    unfold parse6
    rw [stripHash_cons_hash, hs]
  · show (parse6 (if (isHexDigit a && isHexDigit b && isHexDigit c) = true
        then [a, a, b, b, c, c] else ('#' :: [a, b, c]))).getD ⟨255, 255, 255⟩ =
      (parse6 (if (isHexDigit a && isHexDigit b && isHexDigit c) = true
        then [a, a, b, b, c, c] else [a, b, c])).getD ⟨255, 255, 255⟩
    by_cases hb : (isHexDigit a && isHexDigit b && isHexDigit c) = true
    · rw [if_pos hb, if_pos hb]
    · rw [if_neg hb, if_neg hb]
      unfold parse6
      rw [stripHash_cons_hash, hs]
  · show (parse6 ('#' :: a :: b :: c :: d :: t)).getD _ =
      (parse6 (a :: b :: c :: d :: t)).getD _
    unfold parse6
    rw [stripHash_cons_hash, hs]

/-- Claim C10: hexToRgb treats the leading hash as optional and hex digits
case-insensitively: prepending a hash to a string that does not already start
with one does not change the result, strings equal up to ASCII letter case
parse identically, and in particular hexToRgb "9370db" = hexToRgb "#9370DB"
= (147, 112, 219). -/
theorem hexToRgb_hash_optional_case_insensitive :
    (∀ cs : List Char, cs.head? ≠ some '#' → hexToRgbL ('#' :: cs) = hexToRgbL cs) ∧
    (∀ s t : String, List.Forall₂ caseEqC s.data t.data → hexToRgb s = hexToRgb t) ∧
    hexToRgb "9370db" = ⟨147, 112, 219⟩ ∧
    hexToRgb "#9370DB" = ⟨147, 112, 219⟩ :=
  ⟨hexToRgbL_hash_optional,
   fun _ _ h => hexToRgbL_caseEqC h,
   by decide, by decide⟩

/-- Witness for C10: the hash clause at "9370db" and the case clause at
"#9370db" versus "#9370DB". -/
theorem hexToRgb_hash_optional_case_insensitive_witness :
    hexToRgbL ('#' :: "9370db".data) = hexToRgbL "9370db".data ∧
    hexToRgb "#9370db" = hexToRgb "#9370DB" :=
  ⟨hexToRgb_hash_optional_case_insensitive.1 "9370db".data (by decide),
   hexToRgb_hash_optional_case_insensitive.2.1 "#9370db" "#9370DB" (by decide)⟩

/-! ### Data model of arcs, points and configuration (source lines 36-106) -/

/-- Source lines 36-44: a travel arc (Position). -/
structure Position where
  order : JSNum
  startLat : JSNum
  startLng : JSNum
  endLat : JSNum
  endLng : JSNum
  arcAlt : JSNum
  color : String

/-- Source lines 46-70: the caller-supplied configuration; every field is
optional. -/
structure GlobeConfig where
  pointSize : Option ℚ := none
  globeColor : Option String := none
  showAtmosphere : Option Bool := none
  atmosphereColor : Option String := none
  atmosphereAltitude : Option ℚ := none
  emissive : Option String := none
  emissiveIntensity : Option ℚ := none
  shininess : Option ℚ := none
  polygonColor : Option String := none
  ambientLight : Option String := none
  directionalLeftLight : Option String := none
  directionalTopLight : Option String := none
  pointLight : Option String := none
  arcTime : Option ℚ := none
  arcLength : Option ℚ := none
  rings : Option ℚ := none
  maxRings : Option ℚ := none
  initialPosition : Option (ℚ × ℚ) := none
  autoRotate : Option Bool := none
  autoRotateSpeed : Option ℚ := none

/-- The result of the spread merge on source lines 91-106: the thirteen
defaulted display options, with the remaining caller-only options passed
through unchanged. -/
structure MergedProps where
  pointSize : ℚ
  atmosphereColor : String
  showAtmosphere : Bool
  atmosphereAltitude : ℚ
  polygonColor : String
  globeColor : String
  emissive : String
  emissiveIntensity : ℚ
  shininess : ℚ
  arcTime : ℚ
  arcLength : ℚ
  rings : ℚ
  maxRings : ℚ
  ambientLight : Option String
  directionalLeftLight : Option String
  directionalTopLight : Option String
  pointLight : Option String
  initialPosition : Option (ℚ × ℚ)
  autoRotate : Option Bool
  autoRotateSpeed : Option ℚ

/-- Source lines 91-106: defaultProps = { ...defaults, ...globeConfig }.
An option present in globeConfig overrides the default; an omitted option
keeps its default. -/
def defaultProps (globeConfig : GlobeConfig) : MergedProps where
  pointSize := globeConfig.pointSize.getD 1
  atmosphereColor := globeConfig.atmosphereColor.getD "#ffffff"
  showAtmosphere := globeConfig.showAtmosphere.getD true
  atmosphereAltitude := globeConfig.atmosphereAltitude.getD 0.1
  polygonColor := globeConfig.polygonColor.getD "rgba(255,255,255,0.7)"
  globeColor := globeConfig.globeColor.getD "#1d072e"
  emissive := globeConfig.emissive.getD "#000000"
  emissiveIntensity := globeConfig.emissiveIntensity.getD 0.1
  shininess := globeConfig.shininess.getD 0.9
  arcTime := globeConfig.arcTime.getD 2000
  arcLength := globeConfig.arcLength.getD 0.9
  rings := globeConfig.rings.getD 1
  maxRings := globeConfig.maxRings.getD 3
  ambientLight := globeConfig.ambientLight
  directionalLeftLight := globeConfig.directionalLeftLight
  directionalTopLight := globeConfig.directionalTopLight
  pointLight := globeConfig.pointLight
  initialPosition := globeConfig.initialPosition
  autoRotate := globeConfig.autoRotate
  autoRotateSpeed := globeConfig.autoRotateSpeed

/-- Source lines 78-87: a derived point, with its progress-indexed color
function. -/
structure Point where
  size : ℚ
  order : JSNum
  color : ℚ → String
  lat : JSNum
  lng : JSNum

/-- The RGBA string interpolation of source lines 145 and 152. -/
def rgbaStr (rgb : RGB) (a : ℚ) : String :=
  "rgba(" ++ toString rgb.r ++ ", " ++ toString rgb.g ++ ", " ++
    toString rgb.b ++ ", " ++ toString a ++ ")"

/-- The arc filter of source lines 131-137 (also repeated at 193-199). -/
def validArc (arc : Position) : Bool :=
  isValidLat arc.startLat && isValidLng arc.startLng &&
    isValidLat arc.endLat && isValidLng arc.endLng

/-- The two points one arc contributes (source lines 139-157). -/
def arcPoints (size : ℚ) (arc : Position) : List Point :=
  let rgb := hexToRgb arc.color
  [{ size := size, order := arc.order,
     color := fun t => rgbaStr rgb (1 - t),
     lat := arc.startLat, lng := arc.startLng },
   { size := size, order := arc.order,
     color := fun t => rgbaStr rgb (1 - t),
     lat := arc.endLat, lng := arc.endLng }]

/-- The point validity re-check of source line 160. -/
def validPoint (v : Point) : Bool := isValidLat v.lat && isValidLng v.lng

/-- The coordinate comparison of source line 163: v2.lat === v.lat &&
v2.lng === v.lng, with JavaScript strict equality. -/
def sameCoord (v2 v : Point) : Bool := jsEq v2.lat v.lat && jsEq v2.lng v.lng

/-- Pairing every element with its array index, as the (v, i) arguments of a
JavaScript filter callback. -/
def enumFrom' {α : Type _} (n : ℕ) : List α → List (ℕ × α)
  | [] => []
  | x :: xs => (n, x) :: enumFrom' (n + 1) xs

/-- Model of Array.prototype.findIndex: index of the first element satisfying
p; returns the length when there is none (the source only compares the result
against a valid index, so the -1 of JavaScript and the length are
interchangeable there). -/
def findIdx' {α : Type _} (p : α → Bool) : List α → ℕ
  | [] => 0
  | x :: xs => if p x then 0 else findIdx' p xs + 1

/-- Element at an index, if any. -/
def nthOpt {α : Type _} : List α → ℕ → Option α
  | [], _ => none
  | x :: _, 0 => some x
  | _ :: xs, n + 1 => nthOpt xs n

/-- First element satisfying p, if any. -/
def findFirst? {α : Type _} (p : α → Bool) : List α → Option α
  | [] => none
  | x :: xs => if p x then some x else findFirst? p xs

/-- The deduplication filter of source lines 161-164:
filter((v, i, a) => a.findIndex(v2 => v2.lat === v.lat && v2.lng === v.lng) === i). -/
def dedupFilter (l : List Point) : List Point :=
  ((enumFrom' 0 l).filter
      (fun vi => findIdx' (fun v2 => sameCoord v2 vi.2) l == vi.1)).map Prod.snd

/-- The flatMap of source line 139 over the validity-filtered arcs of source
lines 131-137. -/
def rawPoints (cfg : GlobeConfig) (data : List Position) : List Point :=
  (data.filter validArc).flatMap (arcPoints (defaultProps cfg).pointSize)

/-- The first filter of source line 160. -/
def validPoints (cfg : GlobeConfig) (data : List Position) : List Point :=
  (rawPoints cfg data).filter validPoint

/-- Source lines 130-167: the point list _buildData computes and stores. -/
def _buildData (cfg : GlobeConfig) (data : List Position) : List Point :=
  dedupFilter (validPoints cfg data)

/-- Claim C8: the merged configuration equals the defaults overridden by the
caller's values: every option named by the caller takes the caller's value,
and every omitted option takes its documented default (pointSize 1,
atmosphereColor #ffffff, showAtmosphere true, atmosphereAltitude 0.1,
polygonColor rgba(255,255,255,0.7), globeColor #1d072e, emissive #000000,
emissiveIntensity 0.1, shininess 0.9, arcTime 2000, arcLength 0.9, rings 1,
maxRings 3). -/
theorem defaultProps_merge :
    ∀ cfg : GlobeConfig,
      (∀ v, cfg.pointSize = some v → (defaultProps cfg).pointSize = v) ∧
      (cfg.pointSize = none → (defaultProps cfg).pointSize = 1) ∧
      (∀ v, cfg.atmosphereColor = some v → (defaultProps cfg).atmosphereColor = v) ∧
      (cfg.atmosphereColor = none → (defaultProps cfg).atmosphereColor = "#ffffff") ∧
      (∀ v, cfg.showAtmosphere = some v → (defaultProps cfg).showAtmosphere = v) ∧
      (cfg.showAtmosphere = none → (defaultProps cfg).showAtmosphere = true) ∧
      (∀ v, cfg.atmosphereAltitude = some v → (defaultProps cfg).atmosphereAltitude = v) ∧
      (cfg.atmosphereAltitude = none → (defaultProps cfg).atmosphereAltitude = 0.1) ∧
      (∀ v, cfg.polygonColor = some v → (defaultProps cfg).polygonColor = v) ∧
      (cfg.polygonColor = none → (defaultProps cfg).polygonColor = "rgba(255,255,255,0.7)") ∧
      (∀ v, cfg.globeColor = some v → (defaultProps cfg).globeColor = v) ∧
      (cfg.globeColor = none → (defaultProps cfg).globeColor = "#1d072e") ∧
      (∀ v, cfg.emissive = some v → (defaultProps cfg).emissive = v) ∧
      (cfg.emissive = none → (defaultProps cfg).emissive = "#000000") ∧
      (∀ v, cfg.emissiveIntensity = some v → (defaultProps cfg).emissiveIntensity = v) ∧
      (cfg.emissiveIntensity = none → (defaultProps cfg).emissiveIntensity = 0.1) ∧
      (∀ v, cfg.shininess = some v → (defaultProps cfg).shininess = v) ∧
      (cfg.shininess = none → (defaultProps cfg).shininess = 0.9) ∧
      (∀ v, cfg.arcTime = some v → (defaultProps cfg).arcTime = v) ∧
      (cfg.arcTime = none → (defaultProps cfg).arcTime = 2000) ∧
      (∀ v, cfg.arcLength = some v → (defaultProps cfg).arcLength = v) ∧
      (cfg.arcLength = none → (defaultProps cfg).arcLength = 0.9) ∧
      (∀ v, cfg.rings = some v → (defaultProps cfg).rings = v) ∧
      (cfg.rings = none → (defaultProps cfg).rings = 1) ∧
      (∀ v, cfg.maxRings = some v → (defaultProps cfg).maxRings = v) ∧
      (cfg.maxRings = none → (defaultProps cfg).maxRings = 3) := by
  intro cfg
  exact ⟨fun v h => by simp [defaultProps, h],
    fun h => by simp [defaultProps, h],
    fun v h => by simp [defaultProps, h],
    fun h => by simp [defaultProps, h],
    fun v h => by simp [defaultProps, h],
    fun h => by simp [defaultProps, h],
    fun v h => by simp [defaultProps, h],
    fun h => by simp [defaultProps, h],
    fun v h => by simp [defaultProps, h],
    fun h => by simp [defaultProps, h],
    fun v h => by simp [defaultProps, h],
    fun h => by simp [defaultProps, h],
    fun v h => by simp [defaultProps, h],
    fun h => by simp [defaultProps, h],
    fun v h => by simp [defaultProps, h],
    fun h => by simp [defaultProps, h],
    fun v h => by simp [defaultProps, h],
    fun h => by simp [defaultProps, h],
    fun v h => by simp [defaultProps, h],
    fun h => by simp [defaultProps, h],
    fun v h => by simp [defaultProps, h],
    fun h => by simp [defaultProps, h],
    fun v h => by simp [defaultProps, h],
    fun h => by simp [defaultProps, h],
    fun v h => by simp [defaultProps, h],
    fun h => by simp [defaultProps, h]⟩

/-- Witness for C8: a caller that sets only pointSize gets its own pointSize
and the default arcTime. -/
theorem defaultProps_merge_witness :
    (defaultProps { pointSize := some 2 }).pointSize = 2 ∧
    (defaultProps { pointSize := some 2 }).arcTime = 2000 := by
  obtain ⟨h1, h2, h3, h4, h5, h6, h7, h8, h9, h10, h11, h12, h13, h14, h15,
    h16, h17, h18, h19, h20, h21, h22, h23, h24, h25, h26⟩ :=
    defaultProps_merge { pointSize := some 2 }
  exact ⟨h1 2 rfl, h20 rfl⟩

/-! ### Properties of the deduplication filter -/

theorem enumFrom'_map_snd {α : Type _} (n : ℕ) (l : List α) :
    (enumFrom' n l).map Prod.snd = l := by
  induction l generalizing n with
  | nil => rfl
  | cons x xs ih => simp [enumFrom', ih]

theorem enumFrom'_fst_ge {α : Type _} {n : ℕ} {l : List α} {p : ℕ × α}
    (h : p ∈ enumFrom' n l) : n ≤ p.1 := by
  induction l generalizing n with
  | nil => cases h
  | cons x xs ih =>
    simp only [enumFrom', List.mem_cons] at h
    rcases h with h | h
    · subst h
      exact Nat.le_refl n
    · exact Nat.le_of_succ_le (ih h)

theorem enumFrom'_pairwise {α : Type _} (n : ℕ) (l : List α) :
    (enumFrom' n l).Pairwise (fun a b => a.1 < b.1) := by
  induction l generalizing n with
  | nil => exact List.Pairwise.nil
  | cons x xs ih =>
    refine List.Pairwise.cons (fun b hb => ?_) (ih (n + 1))
    exact Nat.lt_of_succ_le (enumFrom'_fst_ge hb)

theorem mem_enumFrom' {α : Type _} {n : ℕ} {l : List α} {i : ℕ} {x : α} :
    (i, x) ∈ enumFrom' n l ↔ ∃ j, i = n + j ∧ nthOpt l j = some x := by
  induction l generalizing n with
  | nil => simp [enumFrom', nthOpt]
  | cons y ys ih =>
    constructor
    · intro h
      simp only [enumFrom', List.mem_cons] at h
      rcases h with h | h
      · rw [Prod.mk.injEq] at h
        obtain ⟨h1, h2⟩ := h
        subst h1
        subst h2
        exact ⟨0, by omega, rfl⟩
      · obtain ⟨j, hj, hn⟩ := ih.mp h
        exact ⟨j + 1, by omega, hn⟩
    · rintro ⟨j, rfl, hn⟩
      cases j with
      | zero =>
        cases hn
        show _ ∈ (n, x) :: enumFrom' (n + 1) ys
        rw [Nat.add_zero]
        exact List.mem_cons_self _ _
      | succ j =>
        show _ ∈ (n, y) :: enumFrom' (n + 1) ys
        refine List.mem_cons_of_mem _ (ih.mpr ⟨j, by omega, hn⟩)

theorem nthOpt_mem {α : Type _} {l : List α} {j : ℕ} {x : α}
    (h : nthOpt l j = some x) : x ∈ l := by
  induction l generalizing j with
  | nil => cases h
  | cons y ys ih =>
    cases j with
    | zero => cases h; exact List.mem_cons_self _ _
    | succ j => exact List.mem_cons_of_mem _ (ih h)

theorem mem_nthOpt {α : Type _} {l : List α} {x : α} (h : x ∈ l) :
    ∃ j, nthOpt l j = some x := by
  induction l with
  | nil => cases h
  | cons y ys ih =>
    rw [List.mem_cons] at h
    rcases h with h | h
    · subst h
      exact ⟨0, rfl⟩
    · obtain ⟨j, hj⟩ := ih h
      exact ⟨j + 1, hj⟩

theorem nthOpt_lt_length {α : Type _} {l : List α} {j : ℕ} {x : α}
    (h : nthOpt l j = some x) : j < l.length := by
  induction l generalizing j with
  | nil => cases h
  | cons y ys ih =>
    cases j with
    | zero => simp
    | succ j => simpa using ih h

theorem nthOpt_of_lt {α : Type _} {l : List α} {j : ℕ} (h : j < l.length) :
    ∃ x, nthOpt l j = some x := by
  induction l generalizing j with
  | nil => simp at h
  | cons y ys ih =>
    cases j with
    | zero => exact ⟨y, rfl⟩
    | succ j => exact ih (by simpa using h)

theorem findIdx'_le_of_nthOpt {α : Type _} {p : α → Bool} {l : List α} {j : ℕ} {x : α}
    (hn : nthOpt l j = some x) (hp : p x = true) : findIdx' p l ≤ j := by
  induction l generalizing j with
  | nil => cases hn
  | cons y ys ih =>
    cases j with
    | zero =>
      cases hn
      simp [findIdx', hp]
    | succ j =>
      unfold findIdx'
      split
      · omega
      · exact Nat.succ_le_succ (ih hn)

theorem findFirst?_eq_nthOpt {α : Type _} (p : α → Bool) (l : List α) :
    findFirst? p l = nthOpt l (findIdx' p l) := by
  induction l with
  | nil => rfl
  | cons y ys ih =>
    unfold findFirst? findIdx'
    split
    · rfl
    · exact ih

theorem nthOpt_findIdx'_true {α : Type _} {p : α → Bool} {l : List α} {x : α}
    (h : nthOpt l (findIdx' p l) = some x) : p x = true := by
  induction l with
  | nil => cases h
  | cons y ys ih =>
    unfold findIdx' at h
    split at h
    · cases h
      assumption
    · exact ih h

theorem exists_val_of_validCoordinate {x : JSNum} {m : ℚ}
    (h : isValidCoordinate x m = true) : ∃ q, x = val q := by
  cases x with
  | nan => simp [isValidCoordinate, isNaN] at h
  | val q => exact ⟨q, rfl⟩

theorem sameCoord_self {p : Point} (h : validPoint p = true) :
    sameCoord p p = true := by
  unfold validPoint at h
  rw [Bool.and_eq_true] at h
  obtain ⟨ql, hl⟩ := exists_val_of_validCoordinate h.1
  obtain ⟨qg, hg⟩ := exists_val_of_validCoordinate h.2
  unfold sameCoord
  rw [hl, hg]
  simp [jsEq]

theorem sameCoord_ext {a b : Point} (h : sameCoord a b = true) :
    ∀ v2, sameCoord v2 a = sameCoord v2 b := by
  intro v2
  unfold sameCoord at h ⊢
  rw [Bool.and_eq_true] at h
  obtain ⟨ql, ha1, hb1⟩ := jsEq_true_iff.mp h.1
  obtain ⟨qg, ha2, hb2⟩ := jsEq_true_iff.mp h.2
  rw [ha1, hb1, ha2, hb2]

theorem sameCoord_lat_lng {a b : Point} (h : sameCoord a b = true) :
    a.lat = b.lat ∧ a.lng = b.lng := by
  unfold sameCoord at h
  rw [Bool.and_eq_true] at h
  obtain ⟨ql, ha1, hb1⟩ := jsEq_true_iff.mp h.1
  obtain ⟨qg, ha2, hb2⟩ := jsEq_true_iff.mp h.2
  rw [ha1, hb1, ha2, hb2]
  exact ⟨rfl, rfl⟩

theorem mem_dedupFilter {l : List Point} {q : Point} :
    q ∈ dedupFilter l ↔
      ∃ i, nthOpt l i = some q ∧ findIdx' (fun v2 => sameCoord v2 q) l = i := by
  unfold dedupFilter
  constructor
  · intro hq
    obtain ⟨⟨i, x⟩, hmem, hx⟩ := List.mem_map.mp hq
    cases hx
    obtain ⟨hin, hpred⟩ := List.mem_filter.mp hmem
    obtain ⟨j, hj, hn⟩ := mem_enumFrom'.mp hin
    refine ⟨j, hn, ?_⟩
    simp only [beq_iff_eq] at hpred
    have h2 : findIdx' (fun v2 => sameCoord v2 x) l = i := hpred
    show findIdx' (fun v2 => sameCoord v2 x) l = j
    omega
  · rintro ⟨i, hn, hf⟩
    refine List.mem_map.mpr ⟨(i, q), List.mem_filter.mpr ⟨?_, ?_⟩, rfl⟩
    · exact mem_enumFrom'.mpr ⟨i, by omega, hn⟩
    · simpa using hf

theorem dedupFilter_sublist (l : List Point) : List.Sublist (dedupFilter l) l := by
  have h1 := List.filter_sublist (l := enumFrom' 0 l)
    (p := fun vi => findIdx' (fun v2 => sameCoord v2 vi.2) l == vi.1)
  have h2 := h1.map Prod.snd
  rw [enumFrom'_map_snd] at h2
  exact h2

theorem dedupFilter_pairwise (l : List Point) :
    (dedupFilter l).Pairwise (fun p q => sameCoord p q = false) := by
  unfold dedupFilter
  rw [List.pairwise_map]
  have hp := (enumFrom'_pairwise 0 l).filter
    (p := fun vi => findIdx' (fun v2 => sameCoord v2 vi.2) l == vi.1)
  refine hp.imp_of_mem ?_
  intro a b ha hb hlt
  have hpa := (List.mem_filter.mp ha).2
  have hpb := (List.mem_filter.mp hb).2
  simp only [beq_iff_eq] at hpa hpb
  have hia := hpa
  have hib := hpb
  cases hc : sameCoord a.2 b.2 with
  | false => rfl
  | true =>
    exfalso
    have hext : (fun v2 => sameCoord v2 a.2) = (fun v2 => sameCoord v2 b.2) := by
      funext v2
      exact sameCoord_ext hc v2
    rw [hext] at hia
    omega

theorem dedupFilter_covers {l : List Point} (hl : ∀ p ∈ l, validPoint p = true) :
    ∀ p ∈ l, ∃ q ∈ dedupFilter l, sameCoord q p = true := by
  intro p hp
  obtain ⟨j, hj⟩ := mem_nthOpt hp
  have hpp : sameCoord p p = true := sameCoord_self (hl p hp)
  have hle : findIdx' (fun v2 => sameCoord v2 p) l ≤ j := findIdx'_le_of_nthOpt hj hpp
  have hlt : findIdx' (fun v2 => sameCoord v2 p) l < l.length :=
    Nat.lt_of_le_of_lt hle (nthOpt_lt_length hj)
  obtain ⟨q, hq⟩ := nthOpt_of_lt hlt
  have hqp : sameCoord q p = true :=
    nthOpt_findIdx'_true (p := fun v2 => sameCoord v2 p) hq
  have hext : (fun v2 => sameCoord v2 q) = (fun v2 => sameCoord v2 p) := by
    funext v2
    exact sameCoord_ext hqp v2
  refine ⟨q, mem_dedupFilter.mpr ⟨_, hq, ?_⟩, hqp⟩
  rw [hext]

theorem dedupFilter_first_kept {l : List Point} {q : Point}
    (h : q ∈ dedupFilter l) :
    findFirst? (fun v2 => sameCoord v2 q) l = some q := by
  obtain ⟨i, hn, hf⟩ := mem_dedupFilter.mp h
  rw [findFirst?_eq_nthOpt, hf]
  exact hn

/-- Claim C2: the Arc Builder's output contains no two points with identical
(lat, lng) pairs; it is a subsequence of the validity-filtered point list
(first-seen order preserved), every coordinate of that list is still
represented, and each surviving point is the first point of the list carrying
its coordinates.  In particular two arcs sharing a start coordinate yield that
coordinate exactly once. -/
theorem buildData_dedup (cfg : GlobeConfig) (data : List Position) :
    List.Sublist (_buildData cfg data) (validPoints cfg data) ∧
    (_buildData cfg data).Pairwise (fun p q => ¬(p.lat = q.lat ∧ p.lng = q.lng)) ∧
    (∀ p ∈ validPoints cfg data, ∃ q ∈ _buildData cfg data,
      q.lat = p.lat ∧ q.lng = p.lng) ∧
    (∀ q ∈ _buildData cfg data,
      findFirst? (fun v2 => sameCoord v2 q) (validPoints cfg data) = some q) := by
  have hl : ∀ p ∈ validPoints cfg data, validPoint p = true := by
    intro p hp
    exact (List.mem_filter.mp hp).2
  refine ⟨dedupFilter_sublist _, ?_, ?_, fun q hq => dedupFilter_first_kept hq⟩
  · have hpw := dedupFilter_pairwise (validPoints cfg data)
    refine hpw.imp_of_mem ?_
    intro a b ha hb hf
    intro hstruct
    have hav : validPoint a = true :=
      hl a ((dedupFilter_sublist _).subset ha)
    unfold validPoint at hav
    rw [Bool.and_eq_true] at hav
    obtain ⟨ql, hla⟩ := exists_val_of_validCoordinate hav.1
    obtain ⟨qg, hga⟩ := exists_val_of_validCoordinate hav.2
    have : sameCoord a b = true := by
      unfold sameCoord
      rw [← hstruct.1, ← hstruct.2, hla, hga]
      simp [jsEq]
    rw [this] at hf
    cases hf
  · intro p hp
    obtain ⟨q, hq, hqp⟩ := dedupFilter_covers hl p hp
    exact ⟨q, hq, sameCoord_lat_lng hqp⟩

/-- Concrete first arc for the builder witnesses. -/
def wArc1 : Position :=
  { order := val 1, startLat := val 1, startLng := val 2,
    endLat := val 3, endLng := val 4, arcAlt := val 0, color := "#abc" }

/-- Concrete second arc sharing the start coordinate of wArc1. -/
def wArc2 : Position :=
  { order := val 2, startLat := val 1, startLng := val 2,
    endLat := val 5, endLng := val 6, arcAlt := val 0, color := "#abc" }

/-- Concrete arc list with a duplicated start coordinate. -/
def wData : List Position := [wArc1, wArc2]

/-- Empty configuration: every option takes its default. -/
def wCfg : GlobeConfig := {}

/-- The first point the builder derives from wData. -/
def wP1 : Point :=
  { size := 1, order := val 1,
    color := fun t => rgbaStr (hexToRgb "#abc") (1 - t),
    lat := val 1, lng := val 2 }

/-- The second point the builder derives from wData. -/
def wP2 : Point :=
  { size := 1, order := val 1,
    color := fun t => rgbaStr (hexToRgb "#abc") (1 - t),
    lat := val 3, lng := val 4 }

/-- The last surviving point the builder derives from wData (the duplicate
start of wArc2 is dropped). -/
def wP3 : Point :=
  { size := 1, order := val 2,
    color := fun t => rgbaStr (hexToRgb "#abc") (1 - t),
    lat := val 5, lng := val 6 }

theorem wBuildData_eval : _buildData wCfg wData = [wP1, wP2, wP3] := rfl

/-- Witness for C2: on two arcs sharing the start coordinate (1, 2), the
surviving point with that coordinate is the first one derived. -/
theorem buildData_dedup_witness :
    findFirst? (fun v2 => sameCoord v2 wP1) (validPoints wCfg wData) = some wP1 := by
  have hm : wP1 ∈ _buildData wCfg wData := by
    rw [wBuildData_eval]
    exact List.mem_cons_self _ _
  exact (buildData_dedup wCfg wData).2.2.2 wP1 hm

/-- Claim C3: an arc with any invalid coordinate contributes no points to the
Arc Builder's output: removing it from the input leaves the output unchanged,
and no error is raised (the builder is a total function). -/
theorem buildData_drops_invalid_arc (cfg : GlobeConfig) (xs ys : List Position)
    (arc : Position)
    (h : isValidLat arc.startLat = false ∨ isValidLng arc.startLng = false ∨
      isValidLat arc.endLat = false ∨ isValidLng arc.endLng = false) :
    _buildData cfg (xs ++ arc :: ys) = _buildData cfg (xs ++ ys) := by
  have hv : validArc arc = false := by
    unfold validArc
    rcases h with h | h | h | h <;> simp [h]
  unfold _buildData validPoints rawPoints
  rw [List.filter_append, List.filter_append, List.filter_cons, hv]
  simp only [Bool.false_eq_true, if_false]

/-- A concrete arc whose start latitude 200 is out of range. -/
def wBadArc : Position :=
  { order := val 1, startLat := val 200, startLng := val 10,
    endLat := val 20, endLng := val 30, arcAlt := val 0, color := "#abc" }

/-- Witness for C3: the invalid arc wBadArc contributes nothing. -/
theorem buildData_drops_invalid_arc_witness :
    _buildData wCfg [wBadArc] = _buildData wCfg [] :=
  buildData_drops_invalid_arc wCfg [] [] wBadArc (Or.inl (by decide))

/-- Claim C9: every point emitted by the Arc Builder comes from a surviving
arc, and its color function returns rgba(r, g, b, 1-t) for the RGB parsed
from that arc's color string, for every progress t in [0, 1] (alpha fades
linearly from 1 to 0). -/
theorem buildData_color_closure (cfg : GlobeConfig) (data : List Position) :
    ∀ p ∈ _buildData cfg data, ∃ arc,
      arc ∈ data ∧ validArc arc = true ∧
      ((p.lat = arc.startLat ∧ p.lng = arc.startLng) ∨
        (p.lat = arc.endLat ∧ p.lng = arc.endLng)) ∧
      ∀ t : ℚ, 0 ≤ t → t ≤ 1 →
        p.color t = rgbaStr (hexToRgb arc.color) (1 - t) := by
  intro p hp
  have hp2 : p ∈ validPoints cfg data := (dedupFilter_sublist _).subset hp
  have hp3 : p ∈ rawPoints cfg data := (List.mem_filter.mp hp2).1
  unfold rawPoints at hp3
  rw [List.mem_flatMap] at hp3
  obtain ⟨arc, harc, hpin⟩ := hp3
  obtain ⟨hmem, hvalid⟩ := List.mem_filter.mp harc
  have he : arcPoints (defaultProps cfg).pointSize arc =
      [{ size := (defaultProps cfg).pointSize, order := arc.order,
         color := fun t => rgbaStr (hexToRgb arc.color) (1 - t),
         lat := arc.startLat, lng := arc.startLng },
       { size := (defaultProps cfg).pointSize, order := arc.order,
         color := fun t => rgbaStr (hexToRgb arc.color) (1 - t),
         lat := arc.endLat, lng := arc.endLng }] := rfl
  rw [he, List.mem_cons, List.mem_cons] at hpin
  rcases hpin with hpe | hpe | hpe
  · subst hpe
    exact ⟨arc, hmem, hvalid, Or.inl ⟨rfl, rfl⟩, fun t _ _ => rfl⟩
  · subst hpe
    exact ⟨arc, hmem, hvalid, Or.inr ⟨rfl, rfl⟩, fun t _ _ => rfl⟩
  · cases hpe

/-- Witness for C9: the first point of the concrete build carries the color
closure of its arc, evaluated at progress 0 (alpha 1). -/
theorem buildData_color_closure_witness :
    wP1.color 0 = rgbaStr (hexToRgb "#abc") 1 := by
  have hm : wP1 ∈ _buildData wCfg wData := by
    rw [wBuildData_eval]
    exact List.mem_cons_self _ _
  obtain ⟨arc, harc, hval, hcoord, hcol⟩ :=
    buildData_color_closure wCfg wData wP1 hm
  have h0 := hcol 0 (le_refl 0) (by norm_num)
  have hc : arc.color = "#abc" := by
    rcases List.mem_cons.mp harc with h | h
    · rw [h]
      rfl
    · rcases List.mem_cons.mp h with h | h
      · rw [h]
        rfl
      · cases h
  rw [hc] at h0
  rw [h0]
  norm_num

/-! ### Random Sampler (source lines 322-329) -/

/-- The values Math.random() may return: each call yields a number in [0, 1).
A random source is the stream of those calls. -/
def validRand (rand : ℕ → ℚ) : Prop := ∀ i, 0 ≤ rand i ∧ rand i < 1

/-- Source line 325: the value drawn on loop iteration k,
Math.floor(Math.random() * (max - min + 1)) + min. -/
def draw (a b : ℤ) (rand : ℕ → ℚ) (k : ℕ) : ℤ :=
  ⌊rand k * ((b : ℚ) - (a : ℚ) + 1)⌋ + a

/-- Set.add on a JavaScript Set in insertion order: append the value unless
it is already present. -/
def insertDraw (s : List ℤ) (r : ℤ) : List ℤ :=
  if r ∈ s then s else s ++ [r]

/-- Contents of the Set (in insertion order) after k loop iterations. -/
def setAfter (a b : ℤ) (rand : ℕ → ℚ) : ℕ → List ℤ
  | 0 => []
  | k + 1 => insertDraw (setAfter a b rand k) (draw a b rand k)

/-- The while-loop of source lines 324-327 terminates: some iteration count
brings the set size up to count. -/
def genTerminates (a b : ℤ) (count : ℕ) (rand : ℕ → ℚ) : Prop :=
  ∃ k, count ≤ (setAfter a b rand k).length

/-- Source lines 322-329: genRandomNumbers, as Array.from of the set at the
first loop exit.  The termination hypothesis is the proposition that the
unguarded while-loop exits at all. -/
def genRandomNumbers (a b : ℤ) (count : ℕ) (rand : ℕ → ℚ)
    (h : genTerminates a b count rand) : List ℤ :=
  setAfter a b rand (Nat.find (show ∃ k, count ≤ (setAfter a b rand k).length from h))

/-- First-seen-order deduplication, with an accumulator of already seen
values. -/
def dedupFirstAux (seen : List ℤ) : List ℤ → List ℤ
  | [] => []
  | x :: xs =>
    if x ∈ seen then dedupFirstAux seen xs else x :: dedupFirstAux (x :: seen) xs

/-- First-seen-order deduplication of a list. -/
def dedupFirst (l : List ℤ) : List ℤ := dedupFirstAux [] l

theorem insertDraw_length_le (s : List ℤ) (r : ℤ) :
    s.length ≤ (insertDraw s r).length ∧ (insertDraw s r).length ≤ s.length + 1 := by
  unfold insertDraw
  split <;> simp

theorem insertDraw_self (s : List ℤ) (r : ℤ) : r ∈ insertDraw s r := by
  unfold insertDraw
  split
  · assumption
  · simp

theorem insertDraw_mono {s : List ℤ} {x : ℤ} (r : ℤ) (h : x ∈ s) :
    x ∈ insertDraw s r := by
  unfold insertDraw
  split
  · exact h
  · exact List.mem_append_left _ h

theorem setAfter_mono {a b : ℤ} {rand : ℕ → ℚ} {j k : ℕ} (hjk : j ≤ k) {x : ℤ}
    (h : x ∈ setAfter a b rand j) : x ∈ setAfter a b rand k := by
  induction k with
  | zero =>
    have : j = 0 := Nat.le_zero.mp hjk
    subst this
    exact h
  | succ k ih =>
    rcases Nat.lt_or_ge j (k + 1) with hlt | hge
    · exact insertDraw_mono _ (ih (Nat.lt_succ_iff.mp hlt))
    · have : j = k + 1 := Nat.le_antisymm hjk hge
      subst this
      exact h

theorem draw_mem_setAfter {a b : ℤ} {rand : ℕ → ℚ} {j k : ℕ} (h : j < k) :
    draw a b rand j ∈ setAfter a b rand k := by
  have h1 : draw a b rand j ∈ setAfter a b rand (j + 1) := insertDraw_self _ _
  exact setAfter_mono h h1

theorem setAfter_nodup (a b : ℤ) (rand : ℕ → ℚ) (k : ℕ) :
    (setAfter a b rand k).Nodup := by
  induction k with
  | zero => exact List.nodup_nil
  | succ k ih =>
    show (insertDraw (setAfter a b rand k) (draw a b rand k)).Nodup
    unfold insertDraw
    split
    · exact ih
    · next hmem => simp [List.nodup_append, ih, hmem]

theorem draw_bounds {a b : ℤ} {rand : ℕ → ℚ} (hab : a ≤ b) (hr : validRand rand)
    (k : ℕ) : a ≤ draw a b rand k ∧ draw a b rand k ≤ b := by
  obtain ⟨h0, h1⟩ := hr k
  have hcast : ((a : ℚ)) ≤ (b : ℚ) := Int.cast_le.mpr hab
  have hpos : (0 : ℚ) < (b : ℚ) - (a : ℚ) + 1 := by linarith
  constructor
  · have hnn : (0 : ℤ) ≤ ⌊rand k * ((b : ℚ) - (a : ℚ) + 1)⌋ :=
      Int.floor_nonneg.mpr (mul_nonneg h0 (le_of_lt hpos))
    unfold draw
    omega
  · have hlt : rand k * ((b : ℚ) - (a : ℚ) + 1) < ((b - a + 1 : ℤ) : ℚ) := by
      push_cast
      calc rand k * ((b : ℚ) - (a : ℚ) + 1)
          < 1 * ((b : ℚ) - (a : ℚ) + 1) := by
            exact mul_lt_mul_of_pos_right h1 hpos
        _ = (b : ℚ) - (a : ℚ) + 1 := one_mul _
    have hfl : ⌊rand k * ((b : ℚ) - (a : ℚ) + 1)⌋ < b - a + 1 := Int.floor_lt.mpr hlt
    unfold draw
    omega

theorem setAfter_mem_range {a b : ℤ} {rand : ℕ → ℚ} (hab : a ≤ b)
    (hr : validRand rand) (k : ℕ) :
    ∀ x ∈ setAfter a b rand k, a ≤ x ∧ x ≤ b := by
  induction k with
  | zero => intro x hx; cases hx
  | succ k ih =>
    intro x hx
    show a ≤ x ∧ x ≤ b
    have hx2 : x ∈ insertDraw (setAfter a b rand k) (draw a b rand k) := hx
    unfold insertDraw at hx2
    split at hx2
    · exact ih x hx2
    · rcases List.mem_append.mp hx2 with h | h
      · exact ih x h
      · have : x = draw a b rand k := by simpa using h
        subst this
        exact draw_bounds hab hr k

theorem setAfter_length_le {a b : ℤ} {rand : ℕ → ℚ} (hab : a ≤ b)
    (hr : validRand rand) (k : ℕ) :
    (setAfter a b rand k).length ≤ (b - a + 1).toNat := by
  have hnd := setAfter_nodup a b rand k
  have hsub : (setAfter a b rand k).toFinset ⊆ Finset.Icc a b := by
    intro v hv
    have := setAfter_mem_range hab hr k v (List.mem_toFinset.mp hv)
    exact Finset.mem_Icc.mpr this
  have hcard := Finset.card_le_card hsub
  rw [List.toFinset_card_of_nodup hnd, Int.card_Icc] at hcard
  omega

theorem foldl_insertDraw (l : List ℤ) : ∀ acc seen : List ℤ,
    (∀ x, x ∈ seen ↔ x ∈ acc) →
    List.foldl insertDraw acc l = acc ++ dedupFirstAux seen l := by
  induction l with
  | nil => intro acc seen _; simp [dedupFirstAux]
  | cons x xs ih =>
    intro acc seen hiff
    show List.foldl insertDraw (insertDraw acc x) xs = acc ++ dedupFirstAux seen (x :: xs)
    by_cases hx : x ∈ acc
    · have hx' : x ∈ seen := (hiff x).mpr hx
      have e1 : insertDraw acc x = acc := by unfold insertDraw; rw [if_pos hx]
      have e2 : dedupFirstAux seen (x :: xs) = dedupFirstAux seen xs := by
        show (if x ∈ seen then dedupFirstAux seen xs
          else x :: dedupFirstAux (x :: seen) xs) = dedupFirstAux seen xs
        rw [if_pos hx']
      rw [e1, e2]
      exact ih acc seen hiff
    · have hx' : x ∉ seen := fun hc => hx ((hiff x).mp hc)
      have e1 : insertDraw acc x = acc ++ [x] := by unfold insertDraw; rw [if_neg hx]
      have e2 : dedupFirstAux seen (x :: xs) = x :: dedupFirstAux (x :: seen) xs := by
        show (if x ∈ seen then dedupFirstAux seen xs
          else x :: dedupFirstAux (x :: seen) xs) = x :: dedupFirstAux (x :: seen) xs
        rw [if_neg hx']
      rw [e1, e2]
      have hiff2 : ∀ y, y ∈ x :: seen ↔ y ∈ acc ++ [x] := by
        intro y
        simp [hiff y]
        constructor
        · rintro (h | h)
          · exact Or.inr h
          · exact Or.inl h
        · rintro (h | h)
          · exact Or.inr h
          · exact Or.inl h
      rw [ih (acc ++ [x]) (x :: seen) hiff2, List.append_assoc]
      rfl

theorem setAfter_eq_foldl (a b : ℤ) (rand : ℕ → ℚ) (k : ℕ) :
    setAfter a b rand k =
      List.foldl insertDraw [] ((List.range k).map (draw a b rand)) := by
  induction k with
  | zero => rfl
  | succ k ih =>
    rw [List.range_succ, List.map_append, List.foldl_append]
    show insertDraw (setAfter a b rand k) (draw a b rand k) = _
    rw [ih]
    rfl

theorem setAfter_eq_dedupFirst (a b : ℤ) (rand : ℕ → ℚ) (k : ℕ) :
    setAfter a b rand k = dedupFirst ((List.range k).map (draw a b rand)) := by
  rw [setAfter_eq_foldl]
  unfold dedupFirst
  rw [foldl_insertDraw _ [] [] (by simp)]
  rfl

theorem genRandomNumbers_length {a b : ℤ} {count : ℕ} {rand : ℕ → ℚ}
    (h : genTerminates a b count rand) :
    (genRandomNumbers a b count rand h).length = count := by
  unfold genRandomNumbers
  set P : ℕ → Prop := fun k => count ≤ (setAfter a b rand k).length with hP
  have hspec : count ≤ (setAfter a b rand (Nat.find h)).length := Nat.find_spec h
  cases hk : Nat.find (show ∃ k, count ≤ (setAfter a b rand k).length from h) with
  | zero =>
    rw [hk] at hspec
    have : (setAfter a b rand 0).length = 0 := rfl
    omega
  | succ j =>
    have hmin : ¬count ≤ (setAfter a b rand j).length :=
      Nat.find_min h (by omega)
    rw [hk] at hspec
    have hstep :
        (setAfter a b rand (j + 1)).length ≤ (setAfter a b rand j).length + 1 :=
      (insertDraw_length_le _ _).2
    omega

/-- Claim C6: for min <= max and 0 <= count <= max - min + 1, whenever the
sampler's loop exits, the returned list holds exactly count distinct integers,
each in [min, max], listed in insertion order of the underlying set (the
first-seen order of the drawn values); and genRandomNumbers(0, 0, 1) always
terminates with [0], for every random source. -/
theorem genRandomNumbers_spec :
    (∀ (a b : ℤ) (count : ℕ) (rand : ℕ → ℚ), a ≤ b →
      count ≤ (b - a + 1).toNat → validRand rand →
      ∀ h : genTerminates a b count rand,
        (genRandomNumbers a b count rand h).length = count ∧
        (genRandomNumbers a b count rand h).Nodup ∧
        (∀ x ∈ genRandomNumbers a b count rand h, a ≤ x ∧ x ≤ b) ∧
        genRandomNumbers a b count rand h =
          dedupFirst ((List.range
            (Nat.find (show ∃ k, count ≤ (setAfter a b rand k).length from h))).map
              (draw a b rand))) ∧
    (∀ rand : ℕ → ℚ, validRand rand →
      genTerminates 0 0 1 rand ∧
      ∀ h : genTerminates 0 0 1 rand, genRandomNumbers 0 0 1 rand h = [0]) := by
  constructor
  · intro a b count rand hab hcount hr h
    refine ⟨genRandomNumbers_length h, setAfter_nodup a b rand _, ?_, ?_⟩
    · intro x hx
      exact setAfter_mem_range hab hr _ x hx
    · exact setAfter_eq_dedupFirst a b rand _
  · intro rand hr
    have hd : draw 0 0 rand 0 = 0 := by
      obtain ⟨h0, h1⟩ := hr 0
      unfold draw
      have he : ((0 : ℤ) : ℚ) - ((0 : ℤ) : ℚ) + 1 = 1 := by norm_num
      rw [he, mul_one]
      have hz : ⌊rand 0⌋ = 0 := Int.floor_eq_zero_iff.mpr ⟨h0, h1⟩
      omega
    have hone : (setAfter 0 0 rand 1).length = 1 := by
      show (insertDraw [] (draw 0 0 rand 0)).length = 1
      unfold insertDraw
      simp
    have hterm : genTerminates 0 0 1 rand := ⟨1, by omega⟩
    refine ⟨hterm, ?_⟩
    intro h
    have hfind :
        Nat.find (show ∃ k, 1 ≤ (setAfter 0 0 rand k).length from h) = 1 := by
      have hle : Nat.find (show ∃ k, 1 ≤ (setAfter 0 0 rand k).length from h) ≤ 1 :=
        Nat.find_le (by omega)
      have hne : Nat.find (show ∃ k, 1 ≤ (setAfter 0 0 rand k).length from h) ≠ 0 := by
        intro h0
        have hspec := Nat.find_spec (show ∃ k, 1 ≤ (setAfter 0 0 rand k).length from h)
        rw [h0] at hspec
        have : (setAfter 0 0 rand 0).length = 0 := rfl
        omega
      omega
    show setAfter 0 0 rand _ = [0]
    rw [hfind]
    show insertDraw [] (draw 0 0 rand 0) = [0]
    rw [hd]
    rfl

/-- The all-zero random source. -/
def randZero : ℕ → ℚ := fun _ => 0

theorem randZero_valid : validRand randZero :=
  fun _ => ⟨le_refl 0, by unfold randZero; norm_num⟩

theorem randZero_terminates : genTerminates 0 0 1 randZero := by
  refine ⟨1, ?_⟩
  show 1 ≤ (insertDraw [] (draw 0 0 randZero 0)).length
  unfold insertDraw
  simp

/-- Witness for C6: with the all-zero source, genRandomNumbers(0, 0, 1) has
length 1 and equals [0]. -/
theorem genRandomNumbers_spec_witness :
    (genRandomNumbers 0 0 1 randZero randZero_terminates).length = 1 ∧
    genRandomNumbers 0 0 1 randZero randZero_terminates = [0] :=
  ⟨(genRandomNumbers_spec.1 0 0 1 randZero (le_refl 0) (by decide) randZero_valid
      randZero_terminates).1,
   (genRandomNumbers_spec.2 randZero randZero_valid).2 randZero_terminates⟩

theorem setAfter_covers (a b : ℤ) (rand : ℕ → ℚ) :
    ∀ s : Finset ℤ, (∀ v ∈ s, ∃ j, draw a b rand j = v) →
      ∃ k, ∀ v ∈ s, v ∈ setAfter a b rand k := by
  intro s
  induction s using Finset.induction_on with
  | empty => intro _; exact ⟨0, by simp⟩
  | insert hnot ih =>
    next w t =>
    intro hall
    obtain ⟨k1, h1⟩ := ih fun v hv => hall v (Finset.mem_insert_of_mem hv)
    obtain ⟨j, hj⟩ := hall w (Finset.mem_insert_self w t)
    refine ⟨Nat.max k1 (j + 1), ?_⟩
    intro v hv
    rcases Finset.mem_insert.mp hv with hv | hv
    · subst hv
      rw [← hj]
      exact draw_mem_setAfter (Nat.lt_of_lt_of_le (Nat.lt_succ_self j)
        (Nat.le_max_right k1 (j + 1)))
    · exact setAfter_mono (Nat.le_max_left k1 (j + 1)) (h1 v hv)

/-- Amended claim C7: when count exceeds the number of distinct values in
[min, max], the loop never terminates, for every random source; conversely,
when count <= max - min + 1 and the random source eventually draws every
value of [min, max], the loop terminates.  (The original claim, termination
for EVERY random source once count fits the range, fails: a source may keep
returning the same value forever.) -/
theorem genRandomNumbers_termination :
    (∀ (a b : ℤ) (count : ℕ) (rand : ℕ → ℚ), validRand rand → a ≤ b →
      (b - a + 1).toNat < count → ¬genTerminates a b count rand) ∧
    (∀ (a b : ℤ) (count : ℕ) (rand : ℕ → ℚ), a ≤ b →
      count ≤ (b - a + 1).toNat →
      (∀ v : ℤ, a ≤ v → v ≤ b → ∃ j, draw a b rand j = v) →
      genTerminates a b count rand) := by
  constructor
  · intro a b count rand hr hab hlt
    rintro ⟨k, hk⟩
    have := setAfter_length_le hab hr k
    omega
  · intro a b count rand hab hcount hfair
    obtain ⟨k, hcov⟩ := setAfter_covers a b rand (Finset.Icc a b) fun v hv => by
      obtain ⟨h1, h2⟩ := Finset.mem_Icc.mp hv
      exact hfair v h1 h2
    refine ⟨k, ?_⟩
    have hnd := setAfter_nodup a b rand k
    have hsub : Finset.Icc a b ⊆ (setAfter a b rand k).toFinset := by
      intro v hv
      exact List.mem_toFinset.mpr (hcov v hv)
    have hcard := Finset.card_le_card hsub
    rw [List.toFinset_card_of_nodup hnd, Int.card_Icc] at hcard
    omega

/-- Counterexample to C7 as stated: min = 0, max = 1, count = 2 satisfies
count <= max - min + 1, and the all-zero stream is a possible sequence of
Math.random() results, yet the loop never terminates on it: the set stays
at size one forever. -/
theorem genRandomNumbers_termination_counterexample :
    (0 : ℤ) ≤ 1 ∧ (2 : ℕ) ≤ ((1 : ℤ) - 0 + 1).toNat ∧ validRand randZero ∧
    ¬genTerminates 0 1 2 randZero := by
  refine ⟨by decide, by decide, randZero_valid, ?_⟩
  rintro ⟨k, hk⟩
  have hz : ∀ j, draw 0 1 randZero j = 0 := by
    intro j
    unfold draw randZero
    norm_num
  have hs : ∀ n, setAfter 0 1 randZero n = [] ∨ setAfter 0 1 randZero n = [0] := by
    intro n
    induction n with
    | zero => exact Or.inl rfl
    | succ n ih =>
      show insertDraw (setAfter 0 1 randZero n) (draw 0 1 randZero n) = [] ∨
        insertDraw (setAfter 0 1 randZero n) (draw 0 1 randZero n) = [0]
      rw [hz n]
      rcases ih with h | h <;> rw [h]
      · exact Or.inr rfl
      · exact Or.inr (by unfold insertDraw; simp)
  rcases hs k with h | h <;> rw [h] at hk <;> simp at hk

/-- Witness for the amended C7: with the all-zero source, count 2 on the
one-value range [0, 0] never terminates, while count 1 with a source that
reaches every value of [0, 0] terminates. -/
theorem genRandomNumbers_termination_witness :
    ¬genTerminates 0 0 2 randZero ∧ genTerminates 0 0 1 randZero := by
  constructor
  · exact genRandomNumbers_termination.1 0 0 2 randZero randZero_valid
      (le_refl 0) (by decide)
  · refine genRandomNumbers_termination.2 0 0 1 randZero (le_refl 0) (by decide) ?_
    intro v h0 h1
    have hv : v = 0 := le_antisymm h1 h0
    subst hv
    refine ⟨0, ?_⟩
    unfold draw randZero
    norm_num
